import Mathlib

/-!
Verification of the AVM2 core of the ruffle repository against its
natural-language specification.

The development shallowly embeds the relevant Rust code:

* `src/core/src/avm2/globals/number.rs` — `Number` formatting methods
  (`toExponential`, `toFixed`, `toString`/`print_with_radix`, `valueOf`);
* `src/core/src/avm2.rs` — the broadcast list
  (`register_broadcast_listener`, `broadcast_event`), `do_abc`, and the
  operand-stack discipline (`push`, `pop`);
* `src/core/src/avm2/class.rs` — `Class::validate_class` and
  `Class::with_type_param`.

Finite IEEE-754 doubles are represented by the exact rational value
they denote (every finite double is a rational).  Exact rational
arithmetic is carried out on explicit integer fractions (the type `Q`
below, numerator and positive denominator, not necessarily reduced) so
that every embedded function is executable by kernel reduction.  NaN
and the infinities get their own constructors.  Machine integers are
`Int`/`Nat`.  GC pointers are represented by natural-number identities
(pointer equality becomes equality of the identifiers).
-/

/-! ## Exact fractions -/

/-- An exact rational as an integer fraction.  All constructors and
operations below keep `den > 0`; fractions are not reduced.  This
represents the exact value of a finite `f64`. -/
structure Q where
  num : ℤ
  den : ℤ
deriving DecidableEq

/-- The rational number denoted by a fraction. -/
def Q.toRat (a : Q) : ℚ := (a.num : ℚ) / (a.den : ℚ)

/-- Embed an integer. -/
def Q.ofInt (n : ℤ) : Q := ⟨n, 1⟩

/-- Build `n / d`, normalizing the sign into the numerator so that the
denominator stays positive (for `d ≠ 0`). -/
def Q.mkSigned (n d : ℤ) : Q := if d < 0 then ⟨-n, -d⟩ else ⟨n, d⟩

/-- Exact multiplication. -/
def Q.mul (a b : Q) : Q := ⟨a.num * b.num, a.den * b.den⟩

/-- Exact division (the divisor's sign moves into the numerator). -/
def Q.div (a b : Q) : Q := Q.mkSigned (a.num * b.den) (a.den * b.num)

/-- Exact subtraction. -/
def Q.sub (a b : Q) : Q := ⟨a.num * b.den - b.num * a.den, a.den * b.den⟩

/-- Strict order (valid for positive denominators). -/
def Q.lt (a b : Q) : Prop := a.num * b.den < b.num * a.den

/-- Non-strict order (valid for positive denominators). -/
def Q.le (a b : Q) : Prop := a.num * b.den ≤ b.num * a.den

instance (a b : Q) : Decidable (Q.lt a b) := Int.decLt _ _

instance (a b : Q) : Decidable (Q.le a b) := Int.decLe _ _

/-- Absolute value. -/
def Q.abs (a : Q) : Q := ⟨(a.num.natAbs : ℤ), a.den⟩

/-- Floor to an integer (valid for positive denominators; `/` on `ℤ`
is `Int.ediv`, which rounds toward negative infinity for a positive
divisor). -/
def Q.floor (a : Q) : ℤ := a.num / a.den

/-- The fraction `10 ^ e` for an integer exponent `e`. -/
def qPow10 (e : ℤ) : Q :=
  if e < 0 then ⟨1, (10 : ℤ) ^ e.natAbs⟩ else ⟨(10 : ℤ) ^ e.natAbs, 1⟩

/-! ## Number formatting (`src/core/src/avm2/globals/number.rs`) -/

/-- A runtime `f64` as used by the AVM2 number methods: NaN, the two
infinities, or a finite value.  A finite double is represented by the
exact rational number it denotes. -/
inductive AvmF where
  | nan : AvmF
  | inf : AvmF
  | neginf : AvmF
  | fin (q : Q) : AvmF
deriving DecidableEq

/-- The AVM errors raised by the embedded functions.  `error.rs` is not
part of the presented sources; we record the error code (and, where the
call site supplies it, the literal message) that the constructor calls
in the presented sources pass along: `make_error_1002` (RangeError 1002),
`make_error_1003` (RangeError 1003), `make_error_1004` (TypeError 1004),
and `verify_error` with an explicit code and message. -/
inductive AvmError where
  | rangeError1002 : AvmError
  | rangeError1003 : AvmError
  | typeError1004 : AvmError
  | avmError (code : ℕ) (message : String) : AvmError
deriving DecidableEq

/-- Decidable equality for `Except`, so that concrete runs of the
embedded fallible functions can be checked by `decide`. -/
instance instDecidableEqExcept {ε α : Type} [DecidableEq ε] [DecidableEq α] :
    DecidableEq (Except ε α) :=
  fun a b =>
    match a, b with
    | .ok x, .ok y =>
      if h : x = y then .isTrue (congrArg Except.ok h)
      else .isFalse (fun hh => h (Except.ok.inj hh))
    | .error x, .error y =>
      if h : x = y then .isTrue (congrArg Except.error h)
      else .isFalse (fun hh => h (Except.error.inj hh))
    | .ok _, .error _ => .isFalse (fun hh => Except.noConfusion hh)
    | .error _, .ok _ => .isFalse (fun hh => Except.noConfusion hh)

/-- Round a nonnegative fraction to an integer, to nearest with ties to
even.  This is the rounding Rust's float formatting performs on the
exact value of the double being printed. -/
def roundHalfEven (q : Q) : ℤ :=
  let f : ℤ := q.floor
  let r : Q := q.sub (Q.ofInt f)
  if r.lt ⟨1, 2⟩ then f
  else if Q.lt ⟨1, 2⟩ r then f + 1
  else if f % 2 = 0 then f else f + 1

/-- Decimal digits of `n` left-padded with zeros to `width` characters. -/
def natDigitsPadded (n width : ℕ) : String :=
  String.mk (List.replicate (width - (Nat.repr n).length) '0') ++ Nat.repr n

/-- Rust `format!("{:.d$}", x)` on a finite double of exact value `x`:
decimal with exactly `d` fractional digits, correctly rounded (ties to
even), `-` sign for negative `x`. -/
def fmtFixedQ (x : Q) (d : ℕ) : String :=
  let n : ℕ := (roundHalfEven (x.abs.mul (qPow10 d))).toNat
  let sign := if x.lt (Q.ofInt 0) then "-" else ""
  if d = 0 then sign ++ Nat.repr n
  else sign ++ Nat.repr (n / 10 ^ d) ++ "." ++ natDigitsPadded (n % 10 ^ d) d

/-- Fuel-bounded count of divisions by 10 needed to bring `a` below 10
(the decimal exponent of `a ≥ 1`).  The fuel is far larger than the
decimal exponent of any finite double. -/
def decExpUp (fuel : ℕ) (a : Q) : ℕ :=
  match fuel with
  | 0 => 0
  | fuel + 1 => if a.lt (Q.ofInt 10) then 0 else decExpUp fuel (a.div (Q.ofInt 10)) + 1

/-- Fuel-bounded count of multiplications by 10 needed to bring `a < 1`
up to at least 1 (the negated decimal exponent). -/
def decExpDown (fuel : ℕ) (a : Q) : ℕ :=
  match fuel with
  | 0 => 0
  | fuel + 1 => if Q.le (Q.ofInt 1) a then 0 else decExpDown fuel (a.mul (Q.ofInt 10)) + 1

/-- The decimal exponent of a positive fraction: the unique `e` with
`10 ^ e ≤ a < 10 ^ (e + 1)` (for inputs within double range). -/
def decExp (a : Q) : ℤ :=
  if Q.le (Q.ofInt 1) a then (decExpUp 4000 a : ℤ) else -(decExpDown 4000 a : ℤ)

/-- Rust `format!("{:.d$e}", x)` on a finite double of exact value `x`:
mantissa in `[1, 10)` with exactly `d` fractional digits, correctly
rounded (ties to even, with carry into the exponent when the mantissa
rounds up to 10), then `e` and the exponent with no explicit `+` sign
and no leading zeros. -/
def fmtExpQ (x : Q) (d : ℕ) : String :=
  if x.num = 0 then
    (if d = 0 then "0" else "0." ++ natDigitsPadded 0 d) ++ "e0"
  else
    let e0 : ℤ := decExp x.abs
    let scaled : Q := (x.abs.div (qPow10 e0)).mul (qPow10 d)
    let n0 : ℕ := (roundHalfEven scaled).toNat
    let n : ℕ := if n0 = 10 ^ (d + 1) then 10 ^ d else n0
    let e : ℤ := if n0 = 10 ^ (d + 1) then e0 + 1 else e0
    let sign := if x.lt (Q.ofInt 0) then "-" else ""
    let mant :=
      if d = 0 then Nat.repr n
      else Nat.repr (n / 10 ^ d) ++ "." ++ natDigitsPadded (n % 10 ^ d) d
    sign ++ mant ++ "e" ++ Int.repr e

/-- Rust `format!("{:.d$e}", x)` over the full double domain.  Rust
renders NaN as `NaN` and the infinities as `inf`/`-inf`. -/
def fmtExpF (x : AvmF) (d : ℕ) : String :=
  match x with
  | .nan => "NaN"
  | .inf => "inf"
  | .neginf => "-inf"
  | .fin q => fmtExpQ q d

/-- Rust `format!("{:.d$}", x)` over the full double domain. -/
def fmtFixedF (x : AvmF) (d : ℕ) : String :=
  match x with
  | .nan => "NaN"
  | .inf => "inf"
  | .neginf => "-inf"
  | .fin q => fmtFixedQ q d

/-- Worker for `replaceChars`; the fuel argument makes the recursion
structural (one unit of fuel per consumed character suffices). -/
def replaceCharsAux (pat rep : List Char) : ℕ → List Char → List Char
  | 0, l => l
  | _ + 1, [] => []
  | fuel + 1, c :: rest =>
    if 1 ≤ pat.length ∧ pat.isPrefixOf (c :: rest) then
      rep ++ replaceCharsAux pat rep fuel (rest.drop (pat.length - 1))
    else
      c :: replaceCharsAux pat rep fuel rest

/-- Rust `str::replace`: replace every non-overlapping occurrence of
`pat` in the subject, scanning left to right.  (A guard skips empty
patterns; the embedded code only uses nonempty ones.) -/
def replaceChars (pat rep l : List Char) : List Char :=
  replaceCharsAux pat rep l.length l

/-- Rust `str::replace` on `String`s. -/
def rustReplace (s pat rep : String) : String :=
  String.mk (replaceChars pat.data rep.data s.data)

/-- `Number.toExponential` (`to_exponential` in `number.rs`), applied to
the coerced receiver value `x` and coerced digit count `digits`.
Rejects `digits` outside `[0, 20]` with RangeError 1002, otherwise
formats with Rust `{:.digits$e}` and post-processes the text:
`e` becomes `e+`, then `e+-` becomes `e-`, then every `e+0` is deleted. -/
def to_exponential (x : AvmF) (digits : ℤ) : Except AvmError String :=
  if digits < 0 ∨ digits > 20 then .error .rangeError1002
  else
    .ok (rustReplace (rustReplace (rustReplace
      (fmtExpF x digits.toNat) "e" "e+") "e+-" "e-") "e+0" "")

/-- `Number.toFixed` (`to_fixed` in `number.rs`), applied to the coerced
receiver value `x` and coerced digit count `digits`.  Rejects `digits`
outside `[0, 20]` with RangeError 1002, otherwise formats with Rust
`{:.digits$}`. -/
def to_fixed (x : AvmF) (digits : ℤ) : Except AvmError String :=
  if digits < 0 ∨ digits > 20 then .error .rangeError1002
  else .ok (fmtFixedF x digits.toNat)

/-- The exact rational value of the `f64` nearest to 1.005
(`1.00499999999999989341858963598497211933135986328125`). -/
def double1005 : Q := ⟨1131529406376837, 1125899906842624⟩

/-- The exact rational value of the `f64` nearest to 3.14159. -/
def double314159 : Q := ⟨3537115888337719, 1125899906842624⟩

/-- The exact rational value of the `f64` nearest to 0.0001234. -/
def double0001234 : Q := ⟨4552656437391517, 36893488147419103232⟩

/-- The digit alphabet of `print_with_radix` (the 36-entry
`DIGIT_CHARS` array in `number.rs`, listing the characters 0-9 then
a-z). -/
def DIGIT_CHARS : List Char :=
  "0123456789abcdefghijklmnopqrstuvwxyz".data

/-- Rust `%` on doubles (`number % radix` in `print_with_radix`): the
remainder of truncating division.  The loop only applies it to a
nonnegative dividend and a positive divisor, where truncating and
flooring division agree, so the floor form below is exact. -/
def qRem (a b : Q) : Q := a.sub (b.mul (Q.ofInt ((a.div b).floor)))

/-- The digit-extraction loop of `print_with_radix`: repeatedly take
`number % radix` as the next digit (`as usize` truncates, i.e. floors,
the nonnegative remainder) and divide `number` by the radix, stopping
once `number < 1`; digits are produced least-significant first.  The
fuel makes the recursion structural; `print_with_radix` passes fuel far
exceeding the loop count for any finite double (at most about 1100
iterations at radix 2). -/
def loopDigits (fuel : ℕ) (number : Q) (radix : ℕ) : List Char :=
  match fuel with
  | 0 => []
  | fuel + 1 =>
    let digit : Q := qRem number (Q.ofInt radix)
    let number1 : Q := number.div (Q.ofInt radix)
    let c : Char := DIGIT_CHARS.getD digit.floor.toNat '!'
    if number1.lt (Q.ofInt 1) then [c] else c :: loopDigits fuel number1 radix

/-- `print_with_radix` in `number.rs`.  Radix 10 delegates to the
standard double-to-string coercion (`Value::coerce_to_string`, outside
the presented sources), supplied here as the parameter
`coerceToString`.  Otherwise NaN and the infinities render as literal
tokens, and finite values are printed by repeated division with the
sign (`number.signum() < 0`, i.e. a negative number) appended last and
the digit list reversed. -/
def print_with_radix (coerceToString : AvmF → String) (x : AvmF) (radix : ℕ) :
    String :=
  if radix = 10 then coerceToString x
  else
    match x with
    | .nan => "NaN"
    | .inf => "Infinity"
    | .neginf => "-Infinity"
    | .fin q =>
      let ds := loopDigits 4000 q.abs radix
      let ds := if q.lt (Q.ofInt 0) then ds ++ ['-'] else ds
      String.mk ds.reverse

/-- The receiver of `Number.prototype.toString` / `valueOf`: the
`Number.prototype` object itself (compared by pointer in the code), a
primitive-boxed `int`, a primitive-boxed `Number`, a primitive box
holding any other value, or a non-primitive object. -/
inductive NumReceiver where
  | proto : NumReceiver
  | primInt (i : ℤ) : NumReceiver
  | primNum (x : AvmF) : NumReceiver
  | primOther : NumReceiver
  | notPrimitive : NumReceiver
deriving DecidableEq

/-- The radix-checked tail of `to_string`: radix outside `[2, 36]`
raises RangeError 1003, otherwise print with that radix. -/
def toStringWithRadix (coerceToString : AvmF → String) (x : AvmF) (radix : ℤ) :
    Except AvmError String :=
  if radix < 2 ∨ radix > 36 then .error .rangeError1003
  else .ok (print_with_radix coerceToString x radix.toNat)

/-- `Number.prototype.toString` (`to_string` in `number.rs`): the
prototype object itself immediately yields `"0"`; then non-`Number`
receivers raise TypeError 1004; then the radix (already coerced to an
`i32`, default 10) is validated and the number printed. -/
def number_to_string (coerceToString : AvmF → String) (this : NumReceiver)
    (radix : ℤ) : Except AvmError String :=
  match this with
  | .proto => .ok "0"
  | .primInt i => toStringWithRadix coerceToString (.fin (Q.ofInt i)) radix
  | .primNum x => toStringWithRadix coerceToString x radix
  | .primOther => .error .typeError1004
  | .notPrimitive => .error .typeError1004

/-- The value produced by `Number.prototype.valueOf`: the boxed
primitive (an `int` or a `Number`). -/
inductive NumValue where
  | intV (i : ℤ) : NumValue
  | numV (x : AvmF) : NumValue
deriving DecidableEq

/-- `Number.prototype.valueOf` (`value_of` in `number.rs`): the
prototype object itself immediately yields the integer 0 (`0.into()`);
an `int` or `Number` primitive box yields the boxed value; anything
else raises TypeError 1004. -/
def number_value_of (this : NumReceiver) : Except AvmError NumValue :=
  match this with
  | .proto => .ok (.intV 0)
  | .primInt i => .ok (.intV i)
  | .primNum x => .ok (.numV x)
  | .primOther => .error .typeError1004
  | .notPrimitive => .error .typeError1004

example : to_exponential (.fin (Q.ofInt 0)) 0 = .ok "0" := by decide
example : to_exponential (.fin (Q.ofInt 12345)) 2 = .ok "1.23e+4" := by decide
example : to_exponential (.fin double0001234) 3 = .ok "1.234e-4" := by decide
example : to_fixed (.fin double1005) 2 = .ok "1.00" := by decide
example : to_fixed (.fin double314159) 2 = .ok "3.14" := by decide
example : to_fixed (.fin (Q.ofInt 0)) 21 = .error .rangeError1002 := by decide
example :
    number_to_string (fun _ => "") (.primNum (.fin (Q.ofInt 255))) 16 =
      .ok "ff" := by decide
example :
    number_to_string (fun _ => "") (.primNum (.fin (Q.ofInt (-10)))) 2 =
      .ok "-1010" := by decide
example :
    number_to_string (fun _ => "") (.primNum (.fin (Q.ofInt 36))) 36 =
      .ok "10" := by decide
example :
    number_to_string (fun _ => "") (.primNum (.fin (Q.ofInt 37))) 37 =
      .error .rangeError1003 := by decide
example : number_to_string (fun _ => "") .proto 37 = .ok "0" := by decide

/-! ## Operand stack (`Avm2::push` / `Avm2::pop` in `src/core/src/avm2.rs`) -/

/-- A primitive AVM2 `Value` (every variant except `Object`). -/
inductive PrimValue where
  | undefinedP : PrimValue
  | nullP : PrimValue
  | boolP (b : Bool) : PrimValue
  | intP (i : ℤ) : PrimValue
  | uintP (u : ℕ) : PrimValue
  | numberP (x : AvmF) : PrimValue
  | stringP (s : String) : PrimValue
deriving DecidableEq

/-- An AVM2 `Value` as far as the operand stack is concerned: a
primitive, or an object whose `as_primitive()` view is either `None`
(an ordinary object) or `Some` primitive (a primitive box). -/
inductive StackValue where
  | prim (p : PrimValue) : StackValue
  | objectV (asPrimitive : Option PrimValue) : StackValue
deriving DecidableEq

/-- The unboxing `Avm2::push` performs before pushing: an object that
is a primitive box is replaced by its boxed primitive. -/
def unboxPrimitive (v : StackValue) : StackValue :=
  match v with
  | .objectV (some p) => .prim p
  | v => v

/-- `Avm2::push`: pushing onto the operand stack of an activation whose
stack window starts at `depth` with method-body limit `maxStack`.  The
`Vec` grows at its end; the Lean list holds the top of the stack at its
head, so `Vec::push` becomes list cons.  When the stack already holds
strictly more than `maxStack` values above `depth`, the push is
reported as an overflow warning and is a no-op; otherwise the value is
unboxed and pushed. -/
def avmPush (stack : List StackValue) (value : StackValue)
    (depth maxStack : ℕ) : List StackValue :=
  if stack.length - depth > maxStack then stack
  else unboxPrimitive value :: stack

/-- `Avm2::pop`: popping from the operand stack of an activation whose
stack window starts at `depth`.  When no values sit above `depth` the
underflow is reported as a warning and `undefined` is returned with the
stack unchanged; otherwise the top value is removed and returned. -/
def avmPop (stack : List StackValue) (depth : ℕ) :
    StackValue × List StackValue :=
  if stack.length ≤ depth then (.prim .undefinedP, stack)
  else
    match stack with
    | [] => (.prim .undefinedP, [])
    | v :: rest => (v, rest)

/-! ## Broadcast list (`src/core/src/avm2.rs`) -/

/-- `BROADCAST_WHITELIST` in `avm2.rs`. -/
def BROADCAST_WHITELIST : List String :=
  ["enterFrame", "exitFrame", "frameConstructed", "render"]

/-- The broadcast list: for each event name, the bucket of registered
listener objects in registration order.  Objects are identified by
their pointer identity, modelled as a natural number.  An absent entry
of the hash map and an empty bucket are indistinguishable to the
embedded functions (`entry(..).or_default()` / `get(..)`), so the map
is modelled as a total function with default `[]`. -/
def BroadcastList : Type := String → List ℕ

/-- `Avm2::register_broadcast_listener`: a no-op unless the event name
is whitelisted; a no-op if the object is already in the bucket
(pointer identity); otherwise appends the object to the bucket. -/
def register_broadcast_listener (bl : BroadcastList) (object : ℕ)
    (eventName : String) : BroadcastList :=
  if ¬ (BROADCAST_WHITELIST.contains eventName) then bl
  else if (bl eventName).contains object then bl
  else fun n => if n = eventName then bl eventName ++ [object] else bl n

/-- Apply a batch of registrations (the re-entrant
`register_broadcast_listener` calls a dispatched handler performs). -/
def applyRegistrations (bl : BroadcastList) (regs : List (ℕ × String)) :
    BroadcastList :=
  regs.foldl (fun b r => register_broadcast_listener b r.1 r.2) bl

/-- The dispatch loop of `Avm2::broadcast_event` over the index range
`0..el_length`: at each index the bucket is re-read from the current
broadcast list; if an object is present there and passes the
`is_of_type` filter, it is dispatched to (recorded in the returned
log) and its handler's registrations are applied to the broadcast
list. -/
def broadcastLoop (typeOk : ℕ → Bool) (handler : ℕ → List (ℕ × String))
    (eventName : String) : List ℕ → BroadcastList → BroadcastList × List ℕ
  | [], bl => (bl, [])
  | i :: is, bl =>
    match (bl eventName).get? i with
    | none => broadcastLoop typeOk handler eventName is bl
    | some o =>
      if typeOk o then
        ((broadcastLoop typeOk handler eventName is
            (applyRegistrations bl (handler o))).1,
         o :: (broadcastLoop typeOk handler eventName is
            (applyRegistrations bl (handler o))).2)
      else broadcastLoop typeOk handler eventName is bl

/-- `Avm2::broadcast_event` for an event named `eventName`: a no-op for
non-whitelisted events; otherwise the bucket length `el_length` is read
once at the start and indices `0..el_length` are dispatched in order.
`typeOk` stands for `is_of_type(on_type)`; `handler` gives, for each
dispatched object, the broadcast registrations its event handler
performs (the only mutation of the broadcast list that AS3 code can
cause during dispatch).  The returned log lists the dispatched objects
in dispatch order. -/
def broadcast_event (bl : BroadcastList) (eventName : String)
    (typeOk : ℕ → Bool) (handler : ℕ → List (ℕ × String)) :
    BroadcastList × List ℕ :=
  if ¬ (BROADCAST_WHITELIST.contains eventName) then (bl, [])
  else broadcastLoop typeOk handler eventName
    (List.range (bl eventName).length) bl

/-! ## `Avm2::do_abc` (`src/core/src/avm2.rs`) -/

/-- The observable script actions of `do_abc`: registering (loading)
script `i`, and forcing script `i`'s globals to materialize. -/
inductive AbcAction where
  | loadScript (i : ℕ) : AbcAction
  | forceGlobals (i : ℕ) : AbcAction
deriving DecidableEq

/-- The first loop of `do_abc`: `for i in (0..num_scripts).rev()`,
loading scripts in reverse index order. -/
def loadScriptsRev : ℕ → List AbcAction
  | 0 => []
  | n + 1 => .loadScript n :: loadScriptsRev n

/-- The second loop of `do_abc`: `for i in 0..num_scripts`, forcing
globals in forward index order (every script was just loaded, so
`get_script` yields it). -/
def forceGlobalsFwd : ℕ → List AbcAction
  | 0 => []
  | n + 1 => forceGlobalsFwd n ++ [.forceGlobals n]

/-- `Avm2::do_abc`.  ABC decoding (`swf::avm2::read::Reader`, outside
the presented sources) is abstracted as the parameter `decoded`:
`none` for a decode failure, `some n` for a successfully decoded unit
with `n` scripts.  On failure, error 1107 is raised with the literal
message and no script is registered; on success, scripts are loaded in
reverse index order, then, unless `LAZY_INITIALIZE` is set, globals are
forced in forward index order. -/
def do_abc (decoded : Option ℕ) (lazyInitialize : Bool) :
    Except AvmError (List AbcAction) :=
  match decoded with
  | none =>
    .error (.avmError 1107
      "Error #1107: The ABC data is corrupt, attempt to read out of bounds.")
  | some numScripts =>
    .ok (loadScriptsRev numScripts ++
      if lazyInitialize then [] else forceGlobalsFwd numScripts)

example :
    do_abc (some 3) false =
      .ok [.loadScript 2, .loadScript 1, .loadScript 0,
           .forceGlobals 0, .forceGlobals 1, .forceGlobals 2] := by decide

/-! ## Class validation (`Class::validate_class` in `src/core/src/avm2/class.rs`) -/

/-- The kind of a trait, as far as `validate_class` distinguishes them
(only the getter/setter kinds matter to it). -/
inductive TraitKind where
  | slotK : TraitKind
  | methodK : TraitKind
  | getterK : TraitKind
  | setterK : TraitKind
  | constK : TraitKind
  | classK : TraitKind
  | functionK : TraitKind
deriving DecidableEq

/-- An instance trait as seen by `validate_class`: its QName (local
name plus namespace, namespaces being abstract identities), its kind,
and its `final` / `override` attributes. -/
structure STrait where
  localName : String
  ns : ℕ
  kind : TraitKind
  isFinal : Bool
  isOverride : Bool
deriving DecidableEq

/-- The superclass data `validate_class` reads through
`superclass.inner_class_definition()`: the class name, its protected
namespace, and its instance traits. -/
structure SuperClassRec where
  name : String
  protectedNamespace : Option ℕ
  instanceTraits : List STrait
deriving DecidableEq

/-- The fields of the class under validation that `validate_class`
reads (`traits_loaded` is recorded for fidelity to the claim; the
function itself does not consult it). -/
structure ClassRec where
  name : String
  protectedNamespace : Option ℕ
  instanceTraits : List STrait
  isSystem : Bool
  traitsLoaded : Bool
deriving DecidableEq

/-- The verify errors `validate_class` raises (the code formats each
into a `VerifyError: ...` message string; we keep the data). -/
inductive ClassVerifyError where
  | overridesFinal (traitName className superTraitName superClassName : String) :
      ClassVerifyError
  | notMarkedOverride (traitName className superTraitName superClassName : String) :
      ClassVerifyError
  | overridesNothing (traitName className : String) : ClassVerifyError
deriving DecidableEq

/-- Whether a supertrait/child-trait kind pair is the exempt
getter/setter combination ("Getter/setter pairs do NOT override one
another"): such a match is skipped and scanning continues. -/
def gsExempt (superKind childKind : TraitKind) : Bool :=
  match superKind, childKind with
  | .getterK, .setterK => true
  | .setterK, .getterK => true
  | _, _ => false

/-- The name-match test of `validate_class`: equal local names, and
either the supertrait's namespace matches the child trait's namespace
(`Namespace::matches_ns`, abstracted as the parameter `matchesNs`), or
the child trait sits in its class's protected namespace and the
supertrait's namespace is the superclass's protected namespace
(`exact_version_match`, abstracted as `exactMatch`). -/
def namesMatch (matchesNs exactMatch : ℕ → ℕ → Bool) (isProtected : Bool)
    (superProtectedNs : Option ℕ) (superTrait childTrait : STrait) : Bool :=
  superTrait.localName == childTrait.localName &&
    (matchesNs superTrait.ns childTrait.ns ||
      (isProtected &&
        match superProtectedNs with
        | some p => exactMatch p superTrait.ns
        | none => false))

/-- The scan of one superclass's instance traits: the first supertrait
whose name matches and which is not an exempt getter/setter pairing
(exempt matches are skipped by `continue`). -/
def firstNonExemptMatch (matchesNs exactMatch : ℕ → ℕ → Bool)
    (isProtected : Bool) (cls : SuperClassRec) (childTrait : STrait) :
    Option STrait :=
  cls.instanceTraits.find? (fun st =>
    namesMatch matchesNs exactMatch isProtected cls.protectedNamespace st childTrait &&
      ! gsExempt st.kind childTrait.kind)

/-- The walk up the superclass chain for one child trait.  On the first
non-exempt name match: error if the supertrait is final, error if the
child trait lacks `override`, otherwise stop with `did_override = true`
(the walk does not continue past the first hit).  Returns whether a
match was found. -/
def walkSuperChain (matchesNs exactMatch : ℕ → ℕ → Bool) (isProtected : Bool)
    (selfName : String) (childTrait : STrait) :
    List SuperClassRec → Except ClassVerifyError Bool
  | [] => .ok false
  | cls :: rest =>
    match firstNonExemptMatch matchesNs exactMatch isProtected cls childTrait with
    | some st =>
      if st.isFinal then
        .error (.overridesFinal childTrait.localName selfName st.localName cls.name)
      else if ! childTrait.isOverride then
        .error (.notMarkedOverride childTrait.localName selfName st.localName cls.name)
      else .ok true
    | none => walkSuperChain matchesNs exactMatch isProtected selfName childTrait rest

/-- The `is_protected` computation of `validate_class`: whether the
child trait's namespace is the validated class's protected namespace
(by `exact_version_match`). -/
def traitIsProtected (exactMatch : ℕ → ℕ → Bool) (c : ClassRec)
    (childTrait : STrait) : Bool :=
  match c.protectedNamespace with
  | some p => exactMatch p childTrait.ns
  | none => false

/-- Validation of a single instance trait: compute `is_protected`, walk
the superclass chain, and afterwards reject a trait marked `override`
for which no match was found. -/
def validateTrait (matchesNs exactMatch : ℕ → ℕ → Bool) (c : ClassRec)
    (chain : List SuperClassRec) (childTrait : STrait) :
    Except ClassVerifyError Unit :=
  match walkSuperChain matchesNs exactMatch
    (traitIsProtected exactMatch c childTrait) c.name childTrait chain with
  | .error e => .error e
  | .ok didOverride =>
    if childTrait.isOverride && ! didOverride then
      .error (.overridesNothing childTrait.localName c.name)
    else .ok ()

/-- Validation of all instance traits in order, stopping at the first
error. -/
def validateTraits (matchesNs exactMatch : ℕ → ℕ → Bool) (c : ClassRec)
    (chain : List SuperClassRec) : List STrait → Except ClassVerifyError Unit
  | [] => .ok ()
  | t :: ts =>
    match validateTrait matchesNs exactMatch c chain t with
    | .error e => .error e
    | .ok _ => validateTraits matchesNs exactMatch c chain ts

/-- `Class::validate_class`.  System classes skip all verification.
The `superclass` argument is `None` or the superclass object together
with its superclass chain (`superclass_object()` links), represented as
the list of superclass records starting at the given superclass; when
it is `None` no per-trait checking happens at all. -/
def validate_class (matchesNs exactMatch : ℕ → ℕ → Bool) (c : ClassRec)
    (superclass : Option (List SuperClassRec)) : Except ClassVerifyError Unit :=
  if c.isSystem then .ok ()
  else
    match superclass with
    | none => .ok ()
    | some chain => validateTraits matchesNs exactMatch c chain c.instanceTraits

/-! ## Generic application (`Class::with_type_param` in `class.rs`) -/

/-- The state of one generic class definition that `with_type_param`
touches: its `applications` table (a map from type-parameter key to the
specialized class, insertion at the front shadowing nothing because a
key is inserted at most once) and a fresh-allocation counter modelling
`GcCell` allocation of new class records.  Keys are `Option` pointer
identities: `none` is the explicit "any" slot (`Vector.<*>`), `some p`
is a class parameter compared by pointer (`ClassKey`). -/
structure GenericClassState where
  applications : List (Option ℕ × ℕ)
  nextId : ℕ
deriving DecidableEq

/-- `applications.get(&key)`: the first entry with the given key. -/
def findApplication (apps : List (Option ℕ × ℕ)) (key : Option ℕ) : Option ℕ :=
  (apps.find? (fun e => e.1 == key)).map (fun e => e.2)

/-- `Class::with_type_param`.  A hit in the `applications` table
returns the stored specialization unchanged.  On a miss, the code
requires the `Vector.<*>` prototype (the entry at the "any" slot) and a
`Some` parameter — both `expect`s, modelled as `none` — then allocates
a fresh specialized class, stores it under the key, and returns it. -/
def with_type_param (st : GenericClassState) (param : Option ℕ) :
    Option (ℕ × GenericClassState) :=
  match findApplication st.applications param with
  | some app => some (app, st)
  | none =>
    match findApplication st.applications none with
    | none => none
    | some _objVecCls =>
      match param with
      | none => none
      | some _p =>
        some (st.nextId,
          { applications := (param, st.nextId) :: st.applications,
            nextId := st.nextId + 1 })

/-! ## Theorems -/

/-- C10: `Number.prototype.toString` and `Number.prototype.valueOf`
invoked with the `Number` prototype object itself as the receiver
return `"0"` (respectively the integer 0) immediately, before the
incompatible-object check and before radix validation; in particular
`toString` on the prototype with radix 37 returns `"0"` and does not
raise error 1003 or 1004. -/
theorem number_proto_receiver_shortcircuits :
    (∀ (coerceToString : AvmF → String) (radix : ℤ),
      number_to_string coerceToString .proto radix = .ok "0") ∧
    number_value_of .proto = .ok (.intV 0) ∧
    number_to_string (fun _ => "") .proto 37 = .ok "0" :=
  ⟨fun _ _ => rfl, rfl, rfl⟩

/-- C7: `Number.toFixed(d)` raises RangeError 1002 for every receiver
when `d < 0` or `d > 20`; otherwise it renders the exact IEEE-754 value
of the receiver with exactly `d` fractional digits.  In particular
`(1.005).toFixed(2) = "1.00"` (the double nearest 1.005 is below
1.005), `(3.14159).toFixed(2) = "3.14"`, and `(0).toFixed(21)` raises
error 1002. -/
theorem to_fixed_spec :
    (∀ (x : AvmF) (d : ℤ), d < 0 ∨ 20 < d →
      to_fixed x d = .error .rangeError1002) ∧
    to_fixed (.fin double1005) 2 = .ok "1.00" ∧
    to_fixed (.fin double314159) 2 = .ok "3.14" ∧
    to_fixed (.fin (Q.ofInt 0)) 21 = .error .rangeError1002 := by
  refine ⟨fun x d h => ?_, by decide, by decide, by decide⟩
  unfold to_fixed
  rw [if_pos h]

/-- Witness for `to_fixed_spec` at the concrete out-of-range count
`d = -1`. -/
theorem to_fixed_spec_witness :
    to_fixed (.fin double1005) (-1) = .error .rangeError1002 :=
  to_fixed_spec.1 (.fin double1005) (-1) (by decide)

/-- C2 counterexample: `(0).toExponential(0)` evaluates to `"0"`, not
`"0e+0"` as the claim states — the final `replace("e+0", "")` of
`to_exponential` deletes the whole zero-exponent suffix. -/
theorem to_exponential_zero_counterexample :
    to_exponential (.fin (Q.ofInt 0)) 0 = .ok "0" ∧
    to_exponential (.fin (Q.ofInt 0)) 0 ≠ .ok "0e+0" := by decide

/-- C2 (amended): `toExponential(d)` raises RangeError 1002 outside
`[0, 20]`; within range it renders the mantissa with `d` fractional
digits and a sign-prefixed exponent, except that the `e+0` trimming
deletes a zero exponent entirely, so `(0).toExponential(0) = "0"`;
`(12345).toExponential(2) = "1.23e+4"` and
`(0.0001234).toExponential(3) = "1.234e-4"` as claimed. -/
theorem to_exponential_spec :
    (∀ (x : AvmF) (d : ℤ), d < 0 ∨ 20 < d →
      to_exponential x d = .error .rangeError1002) ∧
    to_exponential (.fin (Q.ofInt 0)) 0 = .ok "0" ∧
    to_exponential (.fin (Q.ofInt 12345)) 2 = .ok "1.23e+4" ∧
    to_exponential (.fin double0001234) 3 = .ok "1.234e-4" := by
  refine ⟨fun x d h => ?_, by decide, by decide, by decide⟩
  unfold to_exponential
  rw [if_pos h]

/-- Witness for `to_exponential_spec` at the concrete out-of-range
count `d = 21`. -/
theorem to_exponential_spec_witness :
    to_exponential (.fin (Q.ofInt 5)) 21 = .error .rangeError1002 :=
  to_exponential_spec.1 (.fin (Q.ofInt 5)) 21 (by decide)

/-- C5 counterexample: with base depth 0 and method-body limit
`max = 0`, a stack holding exactly `max` values above the base (the
empty stack) is NOT at capacity for `Avm2::push` — the guard only
rejects when strictly more than `max` values sit above the base, so the
push goes through and the stack reaches `max + 1` values. -/
theorem avmPush_at_exact_capacity_counterexample :
    ([] : List StackValue).length - 0 = 0 ∧
    avmPush [] (.prim .undefinedP) 0 0 = [.prim .undefinedP] ∧
    avmPush [] (.prim .undefinedP) 0 0 ≠ [] := by decide

/-- C5 (amended): operand-stack accesses are bounded, but the push
guard is strict: `Avm2::push` is a no-op (a warning) exactly when the
stack already holds strictly more than `max` values above `depth` (so
the stack can reach `max + 1` values above the base), and otherwise
pushes the unboxed value; `Avm2::pop` returns `undefined` and leaves
the stack unchanged exactly when no values sit above `depth`, and
otherwise removes and returns the top value.  Lengths change by at most
one in the expected direction — overflow and underflow never wrap. -/
theorem avm_stack_bounds (stack : List StackValue) (v : StackValue)
    (depth maxStack : ℕ) :
    (stack.length - depth > maxStack → avmPush stack v depth maxStack = stack) ∧
    (stack.length - depth ≤ maxStack →
      avmPush stack v depth maxStack = unboxPrimitive v :: stack) ∧
    (stack.length ≤ depth → avmPop stack depth = (.prim .undefinedP, stack)) ∧
    (depth < stack.length →
      ∃ top rest, stack = top :: rest ∧ avmPop stack depth = (top, rest)) := by
  refine ⟨fun h => ?_, fun h => ?_, fun h => ?_, fun h => ?_⟩
  · unfold avmPush
    rw [if_pos h]
  · unfold avmPush
    rw [if_neg (by omega)]
  · unfold avmPop
    rw [if_pos h]
  · match stack with
    | [] => simp at h
    | top :: rest =>
      refine ⟨top, rest, rfl, ?_⟩
      unfold avmPop
      rw [if_neg (by omega)]

/-- Witness for `avm_stack_bounds`: a successful push under the limit
and an underflowing pop at the base. -/
theorem avm_stack_bounds_witness :
    avmPush [.prim (.intP 5)] (.prim (.intP 6)) 0 3 =
      [.prim (.intP 6), .prim (.intP 5)] ∧
    avmPop [.prim (.intP 5)] 1 = (.prim .undefinedP, [.prim (.intP 5)]) :=
  ⟨(avm_stack_bounds [.prim (.intP 5)] (.prim (.intP 6)) 0 3).2.1 (by decide),
   (avm_stack_bounds [.prim (.intP 5)] (.prim (.intP 6)) 1 3).2.2.1 (by decide)⟩

/-- C8: generic application is memoized by parameter identity — after
any successful `with_type_param` call returning the specialized class
`c` in state `st1`, a second call with the same parameter returns the
identical class record and the identical state (so nothing is
allocated: the fresh-id counter does not move). -/
theorem with_type_param_memoized (st : GenericClassState) (param : Option ℕ)
    (c : ℕ) (st1 : GenericClassState)
    (h : with_type_param st param = some (c, st1)) :
    with_type_param st1 param = some (c, st1) := by
  unfold with_type_param at h ⊢
  cases hfind : findApplication st.applications param with
  | some app =>
    rw [hfind] at h
    obtain ⟨rfl, rfl⟩ : app = c ∧ st = st1 := by
      simpa using h
    rw [hfind]
  | none =>
    rw [hfind] at h
    cases hany : findApplication st.applications none with
    | none => rw [hany] at h; simp at h
    | some objVec =>
      rw [hany] at h
      cases param with
      | none => simp at h
      | some p =>
        simp only [Option.some.injEq, Prod.mk.injEq] at h
        obtain ⟨rfl, rfl⟩ := h
        have hhit :
            findApplication ((some p, st.nextId) :: st.applications) (some p) =
              some st.nextId := by
          simp [findApplication, List.find?]
        rw [hhit]

/-- Witness for `with_type_param_memoized`: a concrete first
application (a cache miss that allocates id 1) followed by the
memoized second application. -/
theorem with_type_param_memoized_witness :
    with_type_param ⟨[(some 7, 1), (none, 0)], 2⟩ (some 7) =
      some (1, ⟨[(some 7, 1), (none, 0)], 2⟩) :=
  with_type_param_memoized ⟨[(none, 0)], 1⟩ (some 7) 1
    ⟨[(some 7, 1), (none, 0)], 2⟩ (by decide)

/-- C9: `register_broadcast_listener` leaves the broadcast list
completely unchanged when the event name is not whitelisted, and when
the object is already in the event's bucket (pointer identity);
otherwise it appends the object to the end of the bucket. -/
theorem register_broadcast_listener_spec :
    (∀ (bl : BroadcastList) (o : ℕ) (n : String),
      BROADCAST_WHITELIST.contains n = false →
      register_broadcast_listener bl o n = bl) ∧
    (∀ (bl : BroadcastList) (o : ℕ) (n : String),
      (bl n).contains o = true →
      register_broadcast_listener bl o n = bl) ∧
    (∀ (bl : BroadcastList) (o : ℕ) (n : String),
      BROADCAST_WHITELIST.contains n = true → (bl n).contains o = false →
      register_broadcast_listener bl o n =
        fun m => if m = n then bl n ++ [o] else bl m) := by
  refine ⟨fun bl o n h => ?_, fun bl o n h => ?_, fun bl o n h1 h2 => ?_⟩
  · unfold register_broadcast_listener
    rw [if_pos (show ¬(BROADCAST_WHITELIST.contains n = true) by rw [h]; decide)]
  · unfold register_broadcast_listener
    by_cases hw : BROADCAST_WHITELIST.contains n = true
    · rw [if_neg (show ¬¬(BROADCAST_WHITELIST.contains n = true) by rw [hw]; decide),
        if_pos h]
    · rw [if_pos hw]
  · unfold register_broadcast_listener
    rw [if_neg (show ¬¬(BROADCAST_WHITELIST.contains n = true) by rw [h1]; decide),
      if_neg (show ¬((bl n).contains o = true) by rw [h2]; decide)]

/-- Witness for `register_broadcast_listener_spec`: a non-whitelisted
registration is dropped, a duplicate registration is dropped, and a
fresh whitelisted registration appends. -/
theorem register_broadcast_listener_spec_witness :
    register_broadcast_listener (fun _ => []) 7 "mouseMove" = (fun _ => []) ∧
    register_broadcast_listener (fun _ => [7]) 7 "render" = (fun _ => [7]) ∧
    register_broadcast_listener (fun _ => []) 7 "render" =
      (fun m => if m = "render" then [7] else []) :=
  ⟨register_broadcast_listener_spec.1 (fun _ => []) 7 "mouseMove" (by decide),
   register_broadcast_listener_spec.2.1 (fun _ => [7]) 7 "render" (by decide),
   register_broadcast_listener_spec.2.2 (fun _ => []) 7 "render"
     (by decide) (by decide)⟩

/-- The reverse-order load loop produces exactly the reversal of the
forward index range. -/
theorem loadScriptsRev_eq (n : ℕ) :
    loadScriptsRev n = ((List.range n).map AbcAction.loadScript).reverse := by
  induction n with
  | zero => rfl
  | succ n ih =>
    rw [loadScriptsRev, List.range_succ, List.map_append, List.reverse_append, ih]
    rfl

/-- The forward force loop produces exactly the forward index range. -/
theorem forceGlobalsFwd_eq (n : ℕ) :
    forceGlobalsFwd n = (List.range n).map AbcAction.forceGlobals := by
  induction n with
  | zero => rfl
  | succ n ih =>
    rw [forceGlobalsFwd, List.range_succ, List.map_append, ih]
    rfl

/-- C4: `do_abc` raises AVM error 1107 with the literal corrupt-data
message when decoding fails (performing no script action at all), and
on success performs the script loads in strictly reverse index order
followed — unless `LAZY_INITIALIZE` is set — by the globals forcing in
forward index order. -/
theorem do_abc_spec :
    (∀ lazy, do_abc none lazy =
      .error (.avmError 1107
        "Error #1107: The ABC data is corrupt, attempt to read out of bounds.")) ∧
    (∀ (n : ℕ) (lazy : Bool) (l : List AbcAction), do_abc (some n) lazy = .ok l →
      l.length = (if lazy then n else 2 * n) ∧
      (∀ i, i < n → l.get? i = some (.loadScript (n - 1 - i))) ∧
      (lazy = false → ∀ i, i < n → l.get? (n + i) = some (.forceGlobals i))) := by
  refine ⟨fun _ => rfl, fun n lazy l h => ?_⟩
  have hl : l = loadScriptsRev n ++ if lazy then [] else forceGlobalsFwd n := by
    unfold do_abc at h
    exact (Except.ok.inj h).symm
  have hlen : (loadScriptsRev n).length = n := by
    rw [loadScriptsRev_eq]
    simp
  refine ⟨?_, fun i hi => ?_, fun hlazy i hi => ?_⟩
  · subst hl
    cases lazy with
    | false =>
      simp only [List.length_append, hlen, if_neg Bool.false_ne_true,
        forceGlobalsFwd_eq, List.length_map, List.length_range, Bool.false_eq_true,
        if_false]
      omega
    | true => simp [hlen]
  · subst hl
    rw [List.get?_append (by omega), loadScriptsRev_eq,
      List.get?_reverse (by simpa using hi)]
    have hlt : n - 1 - i < n := by omega
    simp only [List.length_map, List.length_range]
    rw [List.get?_map, List.get?_range hlt]
    rfl
  · subst hlazy
    subst hl
    rw [List.get?_append_right (by omega), forceGlobalsFwd_eq, hlen,
      if_neg Bool.false_ne_true]
    have : n + i - n = i := by omega
    rw [this, List.get?_map, List.get?_range hi]
    rfl

/-- Witness for `do_abc_spec`: a two-script unit loads scripts 1 then
0, then forces globals 0 then 1. -/
theorem do_abc_spec_witness :
    [AbcAction.loadScript 1, .loadScript 0, .forceGlobals 0, .forceGlobals 1].get? 0 =
      some (.loadScript 1) ∧
    [AbcAction.loadScript 1, .loadScript 0, .forceGlobals 0, .forceGlobals 1].get? 2 =
      some (.forceGlobals 0) :=
  ⟨(do_abc_spec.2 2 false
      [.loadScript 1, .loadScript 0, .forceGlobals 0, .forceGlobals 1]
      (by decide)).2.1 0 (by decide),
   (do_abc_spec.2 2 false
      [.loadScript 1, .loadScript 0, .forceGlobals 0, .forceGlobals 1]
      (by decide)).2.2 rfl 0 (by decide)⟩

/-- A registration can only extend a bucket at its end: every bucket of
the old broadcast list is a prefix of the corresponding bucket of the
new one. -/
theorem register_bucket_extends (bl : BroadcastList) (o : ℕ) (n e : String) :
    bl e <+: (register_broadcast_listener bl o n) e := by
  unfold register_broadcast_listener
  split
  · exact List.prefix_refl _
  · split
    · exact List.prefix_refl _
    · show bl e <+: if e = n then bl n ++ [o] else bl e
      split
      · rename_i he
        rw [he]
        exact ⟨[o], rfl⟩
      · exact List.prefix_refl _

/-- A batch of registrations can only extend each bucket at its end. -/
theorem applyRegistrations_bucket_extends (regs : List (ℕ × String))
    (bl : BroadcastList) (e : String) :
    bl e <+: (applyRegistrations bl regs) e := by
  induction regs generalizing bl with
  | nil => exact List.prefix_refl _
  | cons r rs ih =>
    exact (register_bucket_extends bl r.1 r.2 e).trans
      (ih (register_broadcast_listener bl r.1 r.2))

/-- The dispatch loop over the index range `k .. k + m`, where
`k + m` is the length of the bucket `init` observed at the start:
since re-entrant registrations only append, the re-read bucket always
has `init` as a prefix, so exactly the objects of `init.drop k` that
pass the type filter are dispatched, in order; and `init` remains a
prefix of the final bucket. -/
theorem broadcastLoop_range (typeOk : ℕ → Bool)
    (handler : ℕ → List (ℕ × String)) (eventName : String) (init : List ℕ) :
    ∀ (m k : ℕ) (bl : BroadcastList), init <+: bl eventName →
      k + m = init.length →
      (broadcastLoop typeOk handler eventName (List.range' k m) bl).2 =
        (init.drop k).filter typeOk ∧
      init <+: (broadcastLoop typeOk handler eventName (List.range' k m) bl).1
        eventName := by
  intro m
  induction m with
  | zero =>
    intro k bl hpre hk
    refine ⟨?_, hpre⟩
    have hkl : k = init.length := by omega
    rw [hkl, List.drop_length]
    rfl
  | succ m ih =>
    intro k bl hpre hk
    have hk_lt : k < init.length := by omega
    obtain ⟨t, ht⟩ := hpre
    have hget : (bl eventName).get? k = some (init.get ⟨k, hk_lt⟩) := by
      rw [← ht, List.get?_append hk_lt, List.get?_eq_get hk_lt]
    have hdrop : init.drop k = init.get ⟨k, hk_lt⟩ :: init.drop (k + 1) :=
      (List.get_cons_drop init ⟨k, hk_lt⟩).symm
    rw [List.range'_succ]
    simp only [broadcastLoop, hget]
    cases hty : typeOk (init.get ⟨k, hk_lt⟩) with
    | true =>
      have hpre1 : init <+:
          (applyRegistrations bl (handler (init.get ⟨k, hk_lt⟩))) eventName :=
        List.IsPrefix.trans ⟨t, ht⟩
          (applyRegistrations_bucket_extends _ bl eventName)
      have hrec := ih (k + 1)
        (applyRegistrations bl (handler (init.get ⟨k, hk_lt⟩))) hpre1 (by omega)
      rw [if_pos rfl]
      refine ⟨?_, hrec.2⟩
      rw [hdrop, List.filter_cons, if_pos (by rw [hty])]
      rw [hrec.1]
    | false =>
      have hrec := ih (k + 1) bl ⟨t, ht⟩ (by omega)
      rw [if_neg Bool.false_ne_true]
      refine ⟨?_, hrec.2⟩
      rw [hdrop, List.filter_cons, if_neg (by rw [hty]; decide)]
      exact hrec.1

/-- C3: during one `broadcast_event` of a whitelisted event, exactly
the objects occupying the bucket when the broadcast began (at indices
below the length observed then) and passing the type filter are
dispatched, in registration order — so a listener registered while the
broadcast is in flight is skipped.  In particular, with L1 and L2
registered on `enterFrame` and L3 registered during L1's handler, the
first broadcast dispatches to L1 and L2 only, the bucket afterwards
holds L1, L2, L3, and a second broadcast dispatches to L1, L2, L3 in
that order. -/
theorem broadcast_event_spec :
    (∀ (bl : BroadcastList) (eventName : String) (typeOk : ℕ → Bool)
      (handler : ℕ → List (ℕ × String)),
      BROADCAST_WHITELIST.contains eventName = true →
      (broadcast_event bl eventName typeOk handler).2 =
        (bl eventName).filter typeOk) ∧
    (broadcast_event
        (register_broadcast_listener
          (register_broadcast_listener (fun _ => []) 1 "enterFrame")
          2 "enterFrame")
        "enterFrame" (fun _ => true)
        (fun o => if o = 1 then [(3, "enterFrame")] else [])).2 = [1, 2] ∧
    (broadcast_event
        (register_broadcast_listener
          (register_broadcast_listener (fun _ => []) 1 "enterFrame")
          2 "enterFrame")
        "enterFrame" (fun _ => true)
        (fun o => if o = 1 then [(3, "enterFrame")] else [])).1 "enterFrame" =
      [1, 2, 3] ∧
    (broadcast_event
        ((broadcast_event
          (register_broadcast_listener
            (register_broadcast_listener (fun _ => []) 1 "enterFrame")
            2 "enterFrame")
          "enterFrame" (fun _ => true)
          (fun o => if o = 1 then [(3, "enterFrame")] else [])).1)
        "enterFrame" (fun _ => true)
        (fun o => if o = 1 then [(3, "enterFrame")] else [])).2 = [1, 2, 3] := by
  refine ⟨fun bl eventName typeOk handler h => ?_, by decide, by decide, by decide⟩
  unfold broadcast_event
  rw [if_neg (show ¬¬(BROADCAST_WHITELIST.contains eventName = true) by
    rw [h]; decide)]
  rw [List.range_eq_range']
  have := (broadcastLoop_range typeOk handler eventName (bl eventName)
    (bl eventName).length 0 bl (List.prefix_refl _) (by omega)).1
  rw [this, List.drop_zero]

/-- Witness for the general part of `broadcast_event_spec`: a concrete
whitelisted broadcast over a two-element bucket with a filter passing
only one of them. -/
theorem broadcast_event_spec_witness :
    (broadcast_event (fun n => if n = "render" then [4, 5] else [])
      "render" (fun o => o == 4) (fun _ => [])).2 = [4] := by
  have h := broadcast_event_spec.1 (fun n => if n = "render" then [4, 5] else [])
    "render" (fun o => o == 4) (fun _ => []) (by decide)
  exact h.trans (by decide)

/-- The specification's "first matching ancestor trait" for a child
trait: scan the ancestor classes in chain order and each ancestor's
instance traits in declaration order, and take the first trait whose
name matches (local name plus namespace, with the protected-namespace
override rule) and which is not an exempt getter/setter pairing.
Returns the ancestor class along with the trait. -/
def specFirstMatch (matchesNs exactMatch : ℕ → ℕ → Bool) (isProtected : Bool)
    (chain : List SuperClassRec) (childTrait : STrait) :
    Option (SuperClassRec × STrait) :=
  (chain.bind (fun cls => cls.instanceTraits.map (fun st => (cls, st)))).find?
    (fun p =>
      namesMatch matchesNs exactMatch isProtected p.1.protectedNamespace p.2
        childTrait &&
      ! gsExempt p.2.kind childTrait.kind)

/-- The specification's per-trait condition: either no matching
ancestor trait exists (modulo the getter/setter exemption) and the
trait does not carry `override`, or the trait carries `override` and
the first matching ancestor trait is not final. -/
def specTraitOk (matchesNs exactMatch : ℕ → ℕ → Bool) (c : ClassRec)
    (chain : List SuperClassRec) (t : STrait) : Bool :=
  match specFirstMatch matchesNs exactMatch (traitIsProtected exactMatch c t)
    chain t with
  | some (_, st) => t.isOverride && ! st.isFinal
  | none => ! t.isOverride

/-- The chain walk of `validate_class` is determined by the first
matching ancestor trait: no match anywhere yields `ok false`; a first
match in class `cls` yields the final-check / override-check verdict
at that match. -/
theorem walkSuperChain_eq (matchesNs exactMatch : ℕ → ℕ → Bool)
    (isProt : Bool) (selfName : String) (t : STrait)
    (chain : List SuperClassRec) :
    walkSuperChain matchesNs exactMatch isProt selfName t chain =
      match specFirstMatch matchesNs exactMatch isProt chain t with
      | none => .ok false
      | some (cls, st) =>
        if st.isFinal then
          .error (.overridesFinal t.localName selfName st.localName cls.name)
        else if ! t.isOverride then
          .error (.notMarkedOverride t.localName selfName st.localName cls.name)
        else .ok true := by
  induction chain with
  | nil => rfl
  | cons cls rest ih =>
    have hsplit : specFirstMatch matchesNs exactMatch isProt (cls :: rest) t =
        ((firstNonExemptMatch matchesNs exactMatch isProt cls t).map
          (fun st => (cls, st))).or
          (specFirstMatch matchesNs exactMatch isProt rest t) := by
      unfold specFirstMatch firstNonExemptMatch
      rw [show ((cls :: rest).bind
            (fun cls => List.map (fun st => (cls, st)) cls.instanceTraits)) =
          (List.map (fun st => (cls, st)) cls.instanceTraits) ++
            (rest.bind
              (fun cls => List.map (fun st => (cls, st)) cls.instanceTraits))
          from rfl,
        List.find?_append, List.find?_map]
      rfl
    rw [hsplit]
    cases hfm : firstNonExemptMatch matchesNs exactMatch isProt cls t with
    | some st =>
      simp only [walkSuperChain, hfm, Option.map_some', Option.or]
    | none =>
      simp only [walkSuperChain, hfm, Option.map_none', Option.or]
      exact ih

/-- One trait validates successfully exactly when the specification's
per-trait condition holds for it. -/
theorem validateTrait_ok_iff (matchesNs exactMatch : ℕ → ℕ → Bool)
    (c : ClassRec) (chain : List SuperClassRec) (t : STrait) :
    validateTrait matchesNs exactMatch c chain t = .ok () ↔
      specTraitOk matchesNs exactMatch c chain t = true := by
  unfold validateTrait specTraitOk
  rw [walkSuperChain_eq]
  cases hm : specFirstMatch matchesNs exactMatch
      (traitIsProtected exactMatch c t) chain t with
  | none =>
    cases ho : t.isOverride <;> simp [ho]
  | some p =>
    obtain ⟨cls, st⟩ := p
    cases hf : st.isFinal <;> cases ho : t.isOverride <;> simp [hf, ho]

/-- A trait list validates successfully exactly when every trait in it
satisfies the specification's per-trait condition. -/
theorem validateTraits_ok_iff (matchesNs exactMatch : ℕ → ℕ → Bool)
    (c : ClassRec) (chain : List SuperClassRec) (ts : List STrait) :
    validateTraits matchesNs exactMatch c chain ts = .ok () ↔
      ∀ t ∈ ts, specTraitOk matchesNs exactMatch c chain t = true := by
  induction ts with
  | nil => simp [validateTraits]
  | cons t ts ih =>
    have hstep : validateTraits matchesNs exactMatch c chain (t :: ts) =
        match validateTrait matchesNs exactMatch c chain t with
        | .error e => .error e
        | .ok _ => validateTraits matchesNs exactMatch c chain ts := rfl
    rw [List.forall_mem_cons, ← ih, ← validateTrait_ok_iff, hstep]
    cases hv : validateTrait matchesNs exactMatch c chain t with
    | error e =>
      exact ⟨fun h => Except.noConfusion h, fun h => Except.noConfusion h.1⟩
    | ok u =>
      cases u
      exact ⟨fun h => ⟨rfl, h⟩, fun h => h.2⟩

/-- C1 counterexample: a non-system class (traits loaded) with a single
instance trait marked `override`, validated with `superclass = None`.
No matching ancestor trait exists (there are no ancestors at all), so
the claim requires a VerifyError for the dangling `override` — but
`validate_class` succeeds, because the whole per-trait check (including
the final dangling-`override` check) sits inside the
`if let Some(superclass)` branch. -/
theorem validate_class_none_counterexample :
    validate_class (fun a b => a == b) (fun a b => a == b)
      ⟨"D", none, [⟨"foo", 0, .methodK, false, true⟩], false, true⟩
      none = .ok () ∧
    (⟨"foo", 0, TraitKind.methodK, false, true⟩ : STrait).isOverride = true ∧
    (⟨"D", none, [⟨"foo", 0, .methodK, false, true⟩], false, true⟩ :
      ClassRec).isSystem = false := by
  decide

/-- C1 (amended): for a non-system class with traits loaded and a
supplied superclass, `validate_class` succeeds iff every instance trait
either has no matching ancestor trait (modulo the getter/setter
exemption) and does not carry `override`, or carries `override` and its
first matching ancestor trait is not final; a trait carrying `override`
with no match anywhere is rejected.  When `superclass` is `None`,
however, `validate_class` succeeds unconditionally — the dangling-
`override` VerifyError of the claim is not raised in that case. -/
theorem validate_class_spec (matchesNs exactMatch : ℕ → ℕ → Bool)
    (c : ClassRec) (chain : List SuperClassRec)
    (hsys : c.isSystem = false) (hloaded : c.traitsLoaded = true) :
    (validate_class matchesNs exactMatch c (some chain) = .ok () ↔
      ∀ t ∈ c.instanceTraits,
        specTraitOk matchesNs exactMatch c chain t = true) ∧
    validate_class matchesNs exactMatch c none = .ok () := by
  have hns : ¬(c.isSystem = true) := by rw [hsys]; exact Bool.false_ne_true
  unfold validate_class
  rw [if_neg hns, if_neg hns]
  exact ⟨validateTraits_ok_iff matchesNs exactMatch c chain c.instanceTraits,
    rfl⟩

/-- Witness for `validate_class_spec`: subclass `D` declares `foo` with
`override`, superclass `C` declares a non-final `foo` — accepted; and
the same class against `superclass = None` — accepted.  (Dropping the
`override` marker or making `C`'s `foo` final is rejected, per the
iff.) -/
theorem validate_class_spec_witness :
    validate_class (fun a b => a == b) (fun a b => a == b)
      ⟨"D", none, [⟨"foo", 0, .methodK, false, true⟩], false, true⟩
      (some [⟨"C", none, [⟨"foo", 0, .methodK, false, false⟩]⟩]) = .ok () ∧
    validate_class (fun a b => a == b) (fun a b => a == b)
      ⟨"D", none, [⟨"foo", 0, .methodK, false, true⟩], false, true⟩
      none = .ok () :=
  ⟨(validate_class_spec (fun a b => a == b) (fun a b => a == b)
      ⟨"D", none, [⟨"foo", 0, .methodK, false, true⟩], false, true⟩
      [⟨"C", none, [⟨"foo", 0, .methodK, false, false⟩]⟩]
      rfl rfl).1.mpr (by decide),
   (validate_class_spec (fun a b => a == b) (fun a b => a == b)
      ⟨"D", none, [⟨"foo", 0, .methodK, false, true⟩], false, true⟩
      [⟨"C", none, [⟨"foo", 0, .methodK, false, false⟩]⟩]
      rfl rfl).2⟩

/-- The digit extracted by one iteration of the `print_with_radix` loop
lies in `[0, radix)`: the floored remainder `number % radix` of a
nonnegative number by a positive radix. -/
theorem qRem_floor_bound (q : Q) (k : ℕ) (hn : 0 ≤ q.num) (hd : 0 < q.den)
    (hk : 0 < (k : ℤ)) :
    0 ≤ (qRem q (Q.ofInt k)).floor ∧ (qRem q (Q.ofInt k)).floor < k := by
  have hm : (0 : ℤ) < q.den * k := mul_pos hd hk
  simp only [qRem, Q.div, Q.ofInt, Q.mkSigned, Q.mul, Q.sub, Q.floor]
  rw [if_neg (by omega : ¬(q.den * (k : ℤ) < 0))]
  simp only [mul_one, one_mul]
  have h2 : q.num % (q.den * k) =
      q.num - (k : ℤ) * (q.num / (q.den * (k : ℤ))) * q.den := by
    rw [Int.emod_def]
    ring
  constructor
  · apply Int.ediv_nonneg _ hd.le
    have h1 := Int.emod_nonneg q.num (ne_of_gt hm)
    rw [h2] at h1
    exact h1
  · apply Int.ediv_lt_of_lt_mul hd
    have h1 := Int.emod_lt_of_pos q.num hm
    rw [h2] at h1
    exact h1.trans_eq (mul_comm _ _)

/-- Dividing a nonnegative positive-denominator fraction by a positive
radix preserves the invariants the digit loop relies on. -/
theorem qDivRadix_invariant (q : Q) (k : ℕ) (hn : 0 ≤ q.num) (hd : 0 < q.den)
    (hk : 0 < (k : ℤ)) :
    0 ≤ (q.div (Q.ofInt k)).num ∧ 0 < (q.div (Q.ofInt k)).den := by
  simp only [Q.div, Q.ofInt, Q.mkSigned]
  rw [if_neg (by nlinarith : ¬(q.den * (k : ℤ) < 0))]
  constructor
  · simpa using hn
  · simpa using mul_pos hd hk

/-- Every character the digit loop emits belongs to the digit
alphabet. -/
theorem loopDigits_chars (radix : ℕ) (h2 : 2 ≤ radix) (h36 : radix ≤ 36) :
    ∀ (fuel : ℕ) (q : Q), 0 ≤ q.num → 0 < q.den →
      ∀ c ∈ loopDigits fuel q radix, c ∈ DIGIT_CHARS := by
  intro fuel
  induction fuel with
  | zero =>
    intro q _ _ c hc
    simp [loopDigits] at hc
  | succ fuel ih =>
    intro q hn hd c hc
    have hk : (0 : ℤ) < (radix : ℤ) := by
      have hpos : 0 < radix := by omega
      exact_mod_cast hpos
    have hidx := qRem_floor_bound q radix hn hd hk
    have hlen : (qRem q (Q.ofInt radix)).floor.toNat < DIGIT_CHARS.length := by
      have h36z : (qRem q (Q.ofInt radix)).floor < 36 := by
        have : ((radix : ℤ)) ≤ 36 := by exact_mod_cast h36
        omega
      have : DIGIT_CHARS.length = 36 := by decide
      omega
    have hchar : DIGIT_CHARS.getD (qRem q (Q.ofInt radix)).floor.toNat '!' ∈
        DIGIT_CHARS := by
      rw [List.getD_eq_getElem DIGIT_CHARS '!' hlen]
      exact List.getElem_mem hlen
    simp only [loopDigits] at hc
    by_cases hstop : (q.div (Q.ofInt radix)).lt (Q.ofInt 1)
    · rw [if_pos hstop] at hc
      rw [List.mem_singleton.mp hc]
      exact hchar
    · rw [if_neg hstop] at hc
      rcases List.mem_cons.mp hc with hc1 | hc2
      · rw [hc1]
        exact hchar
      · have hinv := qDivRadix_invariant q radix hn hd hk
        exact ih (q.div (Q.ofInt radix)) hinv.1 hinv.2 c hc2

/-- C6: `Number.toString(radix)` on a number receiver raises RangeError
1003 for every radix outside `[2, 36]`; radix 10 delegates to the
standard double-to-string rendering; for the other radices NaN and the
infinities render as literal tokens, every finite value renders using
only the digit alphabet `0-9a-z` plus the `-` sign, with `-` leading
for negative values.  In particular `(255).toString(16) = "ff"`,
`(-10).toString(2) = "-1010"`, `(36).toString(36) = "10"`, and
`(37).toString(37)` raises error 1003. -/
theorem number_to_string_spec :
    (∀ (cts : AvmF → String) (x : AvmF) (radix : ℤ), radix < 2 ∨ 36 < radix →
      number_to_string cts (.primNum x) radix = .error .rangeError1003) ∧
    (∀ (cts : AvmF → String) (x : AvmF),
      number_to_string cts (.primNum x) 10 = .ok (cts x)) ∧
    (∀ (cts : AvmF → String) (radix : ℕ), radix ≠ 10 →
      print_with_radix cts .nan radix = "NaN" ∧
      print_with_radix cts .inf radix = "Infinity" ∧
      print_with_radix cts .neginf radix = "-Infinity") ∧
    (∀ (cts : AvmF → String) (q : Q) (radix : ℕ), 0 < q.den →
      2 ≤ radix → radix ≤ 36 → radix ≠ 10 →
      (∀ c ∈ (print_with_radix cts (.fin q) radix).data,
        c ∈ DIGIT_CHARS ∨ c = '-') ∧
      (q.num < 0 →
        (print_with_radix cts (.fin q) radix).data.head? = some '-')) ∧
    (∀ cts, number_to_string cts (.primNum (.fin (Q.ofInt 255))) 16 =
      .ok "ff") ∧
    (∀ cts, number_to_string cts (.primNum (.fin (Q.ofInt (-10)))) 2 =
      .ok "-1010") ∧
    (∀ cts, number_to_string cts (.primNum (.fin (Q.ofInt 36))) 36 =
      .ok "10") ∧
    (∀ cts, number_to_string cts (.primNum (.fin (Q.ofInt 37))) 37 =
      .error .rangeError1003) ∧
    (∀ cts, number_to_string cts (.primNum .nan) 16 = .ok "NaN") := by
  refine ⟨fun cts x radix h => ?_, fun _ _ => rfl, fun cts radix h => ?_,
    fun cts q radix hd h2 h36 h10 => ⟨fun c hc => ?_, fun hqneg => ?_⟩,
    fun _ => rfl, fun _ => rfl, fun _ => rfl, fun _ => rfl, fun _ => rfl⟩
  · show toStringWithRadix cts x radix = .error .rangeError1003
    unfold toStringWithRadix
    rw [if_pos h]
  · unfold print_with_radix
    rw [if_neg h, if_neg h, if_neg h]
    exact ⟨rfl, rfl, rfl⟩
  · have habs_num : 0 ≤ (Q.abs q).num := by
      show (0 : ℤ) ≤ (q.num.natAbs : ℤ)
      exact_mod_cast Nat.zero_le _
    have hall := loopDigits_chars radix h2 h36 4000 q.abs habs_num hd
    have hform : (print_with_radix cts (.fin q) radix).data =
        (if Q.lt q (Q.ofInt 0) then loopDigits 4000 (Q.abs q) radix ++ ['-']
         else loopDigits 4000 (Q.abs q) radix).reverse := by
      unfold print_with_radix
      rw [if_neg h10]
    rw [hform, List.mem_reverse] at hc
    by_cases hneg : Q.lt q (Q.ofInt 0)
    · rw [if_pos hneg] at hc
      rcases List.mem_append.mp hc with h1 | h1
      · exact Or.inl (hall c h1)
      · right
        simpa using h1
    · rw [if_neg hneg] at hc
      exact Or.inl (hall c hc)
  · have hneg : Q.lt q (Q.ofInt 0) := by
      show q.num * 1 < 0 * q.den
      rw [mul_one, zero_mul]
      exact hqneg
    have hform : (print_with_radix cts (.fin q) radix).data =
        (if Q.lt q (Q.ofInt 0) then loopDigits 4000 (Q.abs q) radix ++ ['-']
         else loopDigits 4000 (Q.abs q) radix).reverse := by
      unfold print_with_radix
      rw [if_neg h10]
    rw [hform, if_pos hneg, List.reverse_append]
    rfl

/-- Witness for `number_to_string_spec`: the out-of-range radix raises
error 1003, radix 10 delegates to the supplied double-to-string
coercion, the NaN literal at radix 16, and a concrete digit of the
radix-16 rendering of 255 lies in the alphabet. -/
theorem number_to_string_spec_witness :
    number_to_string (fun _ => "") (.primNum (.fin (Q.ofInt 255))) 37 =
      .error .rangeError1003 ∧
    number_to_string (fun _ => "ten") (.primNum .nan) 10 = .ok "ten" ∧
    print_with_radix (fun _ => "") .nan 16 = "NaN" ∧
    ('f' ∈ DIGIT_CHARS ∨ 'f' = '-') :=
  ⟨number_to_string_spec.1 (fun _ => "") (.fin (Q.ofInt 255)) 37 (by decide),
   number_to_string_spec.2.1 (fun _ => "ten") .nan,
   (number_to_string_spec.2.2.1 (fun _ => "") 16 (by decide)).1,
   (number_to_string_spec.2.2.2.1 (fun _ => "") (Q.ofInt 255) 16
      (by decide) (by decide) (by decide) (by decide)).1 'f' (by decide)⟩
